import Mathlib

/-!
Verification development for the SingStar XML converter add-on
(`xml_converter/__init__.py`).

The Python source is shallowly embedded: note/sentence/track processing is
translated into executable Lean functions over explicit state records.
Python strings are modelled as `List Char`; Python `int(...)` / `float(...)`
parsing is modelled by `pyInt` / `pyFloat` returning `Option` (a `none`
models a raised `ValueError`); `lxml` element objects are modelled by
records of their relevant attributes.  Outcomes of code paths that can
raise an uncaught exception are modelled with `PyResult`.
-/

namespace XmlConverter

/-! ## Python string primitives -/

/-- Whitespace stripped by Python `str.strip()` (ASCII part, which covers
the lyric alphabet of this converter). -/
def isPySpace (c : Char) : Bool :=
  c = ' ' ∨ c = '\t' ∨ c = '\n' ∨ c = '\r' ∨ c = '\x0b' ∨ c = '\x0c'

/-- Python `str.strip()`. -/
def pyStrip (s : List Char) : List Char :=
  ((s.dropWhile isPySpace).reverse.dropWhile isPySpace).reverse

/-- Python `str.rstrip()`. -/
def pyRStrip (s : List Char) : List Char :=
  (s.reverse.dropWhile isPySpace).reverse

/-- Python `str.lower()` (ASCII case folding; the diphthong table below is
ASCII so non-ASCII characters fall through both sides identically). -/
def pyLower (s : List Char) : List Char :=
  s.map Char.toLower

/-- Python `str.isalpha()` restricted to the ASCII letters that occur in
the lyric attributes. -/
def isAlphaPy (c : Char) : Bool :=
  c.isAlpha

/-- Numeric value of a digit string. -/
def digitsVal (l : List Char) : Nat :=
  l.foldl (fun a c => a * 10 + (c.toNat - 48)) 0

/-- Python `int(s)` in base 10: optional surrounding whitespace, optional
sign, then digits.  `none` models a raised `ValueError`. -/
def pyInt (s : List Char) : Option Int :=
  match pyStrip s with
  | [] => none
  | '-' :: ds =>
      if !ds.isEmpty && ds.all Char.isDigit then some (-(digitsVal ds : Int)) else none
  | '+' :: ds =>
      if !ds.isEmpty && ds.all Char.isDigit then some ((digitsVal ds : Int)) else none
  | ds =>
      if ds.all Char.isDigit then some ((digitsVal ds : Int)) else none

/-- Python `float(s)` for plain decimal notation (optionally signed digit
string with an optional fractional part), which is the shape of the Tempo
attribute.  `none` models a raised `ValueError`. -/
def pyFloatCore (u : List Char) : Option ℚ :=
  let ip := u.takeWhile Char.isDigit
  match u.dropWhile Char.isDigit with
  | [] => if !ip.isEmpty then some ((digitsVal ip : ℚ)) else none
  | '.' :: fp =>
      if fp.all Char.isDigit && (!ip.isEmpty || !fp.isEmpty) then
        some ((digitsVal ip : ℚ) + (digitsVal fp : ℚ) / ((10 : ℚ) ^ fp.length))
      else none
  | _ => none

def pyFloat (s : List Char) : Option ℚ :=
  match pyStrip s with
  | [] => none
  | '-' :: u => (pyFloatCore u).map (fun q => -q)
  | '+' :: u => pyFloatCore u
  | u => pyFloatCore u

/-- Python `str.endswith(" ")`. -/
def ends_with_space (t : List Char) : Bool :=
  t.getLast? = some ' '

/-- "ends with exactly one trailing space": used to state claim C5. -/
def ends_with_exactly_one_space (t : List Char) : Bool :=
  match t.reverse with
  | ' ' :: rest =>
      match rest with
      | c :: _ => !(c = ' ' : Bool)
      | [] => true
  | _ => false

/-- Outcome of a Python code path: a value, or an uncaught exception with
the exception type's name. -/
inductive PyResult (α : Type) where
  | ok (val : α)
  | exn (name : List Char)
deriving DecidableEq, Repr

/-! ## Data model (`usdb_syncer.song_txt.tracks` as used by the converter) -/

inductive NoteKind where
  | regular
  | golden
  | rap
  | goldenRap
  | freestyle
deriving DecidableEq, Repr

structure Note where
  kind : NoteKind
  start : Int
  duration : Int
  pitch : Int
  text : List Char
deriving DecidableEq, Repr

instance : Inhabited Note := ⟨⟨NoteKind.regular, 0, 0, 0, []⟩⟩

/-- `Line(notes=..., line_break=...)`: the break is modelled by its
`previous_line_out_time` payload (`LineBreak(t, None)` becomes `some t`). -/
structure Line where
  notes : List Note
  line_break : Option Int
deriving DecidableEq, Repr

instance : Inhabited Line := ⟨⟨[], none⟩⟩

/-- Python `notes[i].text = t`. -/
def set_text (n : Note) (t : List Char) : Note :=
  { n with text := t }

/-- Model of an lxml `<NOTE>` element: its relevant attributes (`none`
means the attribute is absent) and the `Type` attributes of its
`<MARKER_N>` children. -/
structure NoteElem where
  midiNote : Option (List Char)
  duration : Option (List Char)
  lyric : Option (List Char)
  bonus : Option (List Char)
  freeStyle : Option (List Char)
  rapAttr : Option (List Char)
  markers : List (List Char)
deriving DecidableEq, Repr

/-- Model of a `<SENTENCE>` element: its optional `Singer` attribute and
its `<NOTE>` children. -/
structure Sentence where
  singer : Option (List Char)
  notes : List NoteElem
deriving DecidableEq, Repr

/-- `_parse_bool_attribute`. -/
def parse_bool_attribute (value : Option (List Char)) : Bool :=
  value = some ("Yes".toList)

/-! ## Lyric cleaning and heuristics -/

/-- `_fix_lyric_string` (the call site always passes a string, with `""`
as the default for a missing attribute, so the argument is a plain
string here and `[]` is the falsy case). -/
def fix_lyric_string (lyric : List Char) : List Char :=
  if lyric = [] then []
  else if lyric = ['-'] then ['~']
  else if [' ', '-'].isSuffixOf lyric then lyric.dropLast.dropLast
  else if ['-'].isSuffixOf lyric && decide (1 < lyric.length)
          && isAlphaPy (lyric.getD (lyric.length - 2) ' ') then lyric
  else lyric ++ [' ']

/-- Flush of one collected run of tilde notes in `fix_tilde_spacing`:
all indices except the last are set to `"~"`, the last to `"~ "`. -/
def flush_tilde_run (run : List Note) : List Note :=
  match run.getLast? with
  | none => []
  | some lastNote =>
      run.dropLast.map (fun m => set_text m ['~']) ++ [set_text lastNote ['~', ' ']]

/-- Scanning loop of `fix_tilde_spacing`: `run` is the list of notes whose
indices are currently collected in `tilde_indices`. -/
def fix_tilde_spacing_go (run : List Note) : List Note → List Note
  | [] => flush_tilde_run run
  | n :: rest =>
      if pyStrip n.text = ['~'] then fix_tilde_spacing_go (run ++ [n]) rest
      else flush_tilde_run run ++ n :: fix_tilde_spacing_go [] rest

/-- `fix_tilde_spacing` (in-place text mutation rendered as a function on
the note list; only `.text` fields change). -/
def fix_tilde_spacing (notes : List Note) : List Note :=
  fix_tilde_spacing_go [] notes

/-- `_add_space_to_last_tilde`: the last note of every maximal run of
notes whose text is exactly `"~"` gets text `"~ "`. -/
def add_space_to_last_tilde : List Note → List Note
  | [] => []
  | [n] => if n.text = ['~'] then [set_text n ['~', ' ']] else [n]
  | n :: m :: rest =>
      if n.text = ['~'] then
        if m.text = ['~'] then n :: add_space_to_last_tilde (m :: rest)
        else set_text n ['~', ' '] :: add_space_to_last_tilde (m :: rest)
      else n :: add_space_to_last_tilde (m :: rest)

def VOWELS : List Char := "aeiouäöüAEIOUÄÖÜ".toList

def DIPHTHONGS : List (List Char) :=
  ["aa", "ae", "ah", "ai", "au", "ay", "Ah", "ea", "eah", "ee", "ei", "eu",
   "ey", "eye", "ie", "io", "oa", "oe", "oh", "ooh", "oi", "oo", "ou", "oy",
   "Oh", "Ooh", "ue", "ui"].map String.toList

/-- First loop of `_split_on_first_vowel_or_diphthong`: diphthong matches
`(i, 2)` for every position whose lowercased two-character substring is in
`DIPHTHONGS`. -/
def diph_scan (text : List Char) : List (Nat × Nat) :=
  (List.range (text.length - 1)).filterMap (fun i =>
    if pyLower ((text.drop i).take 2) ∈ DIPHTHONGS then some (i, 2) else none)

/-- `start <= i < start + length` for some collected match. -/
def covered (ml : List (Nat × Nat)) (i : Nat) : Bool :=
  ml.any (fun sl => decide (sl.1 ≤ i) && decide (i < sl.1 + sl.2))

/-- Loop body of the second loop of `_split_on_first_vowel_or_diphthong`:
a vowel is appended when its position is not covered by an already
collected match; the match list grows while scanning, exactly as in the
source. -/
def vowel_scan_step (text : List Char) (acc : List (Nat × Nat)) (i : Nat) :
    List (Nat × Nat) :=
  if text.getD i ' ' ∈ VOWELS ∧ covered acc i = false then acc ++ [(i, 1)]
  else acc

/-- Second loop of `_split_on_first_vowel_or_diphthong`
(`for i, char in enumerate(text)` rendered as a fold over the index
range). -/
def vowel_scan (text : List Char) (dm : List (Nat × Nat)) : List (Nat × Nat) :=
  (List.range text.length).foldl (vowel_scan_step text) dm

/-- Stable insertion by start position, modelling
`matches.sort(key=lambda x: x[0])`. -/
def insert_by_fst (m : Nat × Nat) : List (Nat × Nat) → List (Nat × Nat)
  | [] => [m]
  | x :: xs => if m.1 < x.1 then m :: x :: xs else x :: insert_by_fst m xs

def sort_by_fst (l : List (Nat × Nat)) : List (Nat × Nat) :=
  l.foldr insert_by_fst []

/-- `_split_on_first_vowel_or_diphthong`. -/
def split_on_first_vowel_or_diphthong (text : List Char) :
    Option (List Char × List Char) :=
  match sort_by_fst (vowel_scan text (diph_scan text)) with
  | [] => none
  | m :: _ => some (text.take (m.1 + m.2), text.drop (m.1 + m.2))

/-- `_split_lyrics_to_tildes`: split syllables across tilde clusters on
the first vowel or diphthong of the preceding note's stripped text.  The
source's while loop strictly increases its index each iteration, so it
runs at most `notes.length` times; the loop is rendered with that
iteration bound as explicit fuel (the zero-fuel case is unreachable). -/
def split_lyrics_to_tildes_go : Nat → List Note → List Note
  | 0, l => l
  | _ + 1, [] => []
  | fuel + 1, n :: rest =>
      if pyStrip n.text ≠ [] ∧ pyStrip n.text ≠ ['~'] ∧
          rest.head?.map (fun m => pyStrip m.text) = some ['~'] then
        match split_on_first_vowel_or_diphthong (pyStrip n.text) with
        | none => n :: split_lyrics_to_tildes_go fuel rest
        | some lr =>
            let cluster := rest.takeWhile (fun m => pyStrip m.text = ['~'])
            let rest2 := rest.dropWhile (fun m => pyStrip m.text = ['~'])
            set_text n lr.1 ::
              (cluster.dropLast.map (fun m => set_text m ['~']) ++
               (match cluster.getLast? with
                | none => []
                | some lastNote =>
                    [set_text lastNote (('~' :: pyRStrip lr.2) ++ [' '])]) ++
               split_lyrics_to_tildes_go fuel rest2)
      else n :: split_lyrics_to_tildes_go fuel rest

def split_lyrics_to_tildes (notes : List Note) : List Note :=
  split_lyrics_to_tildes_go notes.length notes

/-! ## Per-sentence note extraction (`_parse_sentence_to_line`) -/

/-- State threaded through the note loop of `_parse_sentence_to_line`:
the notes collected for the current line, the running beat cursor, and the
medley markers recorded on the converter object. -/
structure SentState where
  notes : List Note
  beat : Int
  medley_start : Option Int
  medley_end : Option Int
deriving DecidableEq, Repr

/-- `extract_medley_markers`: every `MARKER_N` child's `Type` attribute is
matched; the last observed marker of each kind wins. -/
def extract_medley_markers (current_beat : Int) (elem : NoteElem)
    (st : SentState) : SentState :=
  elem.markers.foldl (fun st m =>
    if m = ("MedleyNormalBegin".toList) then { st with medley_start := some current_beat }
    else if m = ("MedleyNormalEnd".toList) then { st with medley_end := some current_beat }
    else st) st

/-- `get_note_kind`. -/
def get_note_kind (elem : NoteElem) : NoteKind :=
  let is_golden := parse_bool_attribute elem.bonus
  let is_rap := parse_bool_attribute elem.rapAttr
  let is_freestyle := parse_bool_attribute elem.freeStyle
  if is_freestyle && !is_rap then NoteKind.freestyle
  else if is_rap then (if is_golden then NoteKind.goldenRap else NoteKind.rap)
  else if is_golden then NoteKind.golden
  else NoteKind.regular

/-- The `except (ValueError, KeyError)` handler of the note loop:
advance the cursor by the raw duration attribute when it parses, leave it
unchanged when that parse fails too. -/
def except_duration_advance (elem : NoteElem) (beat : Int) : Int :=
  match pyInt (elem.duration.getD ("0".toList)) with
  | some d => beat + d
  | none => beat

/-- One iteration of the note loop of `_parse_sentence_to_line`. -/
def note_step (st : SentState) (elem : NoteElem) : SentState :=
  let st1 := extract_medley_markers st.beat elem st
  match pyInt (elem.midiNote.getD ("0".toList)) with
  | none => { st1 with beat := except_duration_advance elem st1.beat }
  | some pitch =>
      match pyInt (elem.duration.getD ("0".toList)) with
      | none => { st1 with beat := except_duration_advance elem st1.beat }
      | some dur =>
          if dur ≤ 0 then st1
          else if pitch ≤ 0 then { st1 with beat := st1.beat + dur }
          else
            let lyric := fix_lyric_string (elem.lyric.getD [])
            if pyStrip lyric = [] ∧ ¬ parse_bool_attribute elem.freeStyle then
              { st1 with beat := st1.beat + dur }
            else
              { st1 with
                notes := st1.notes ++
                  [⟨get_note_kind elem, st1.beat, dur, pitch, lyric⟩],
                beat := st1.beat + dur }

/-- The trailing-space adjustment applied to the last retained note when a
sentence produced a non-empty line (`if not ...endswith(" "): ... += " "`). -/
def fix_last_note_space (notes : List Note) : List Note :=
  match notes.getLast? with
  | none => notes
  | some n =>
      notes.dropLast ++
        [set_text n (if ends_with_space n.text then n.text else n.text ++ [' '])]

/-- `_parse_sentence_to_line`: returns the built `Line` together with the
final loop state (beat cursor and medley markers). -/
def parse_sentence_to_line (sentence : List NoteElem) (start_beat : Int)
    (ms me : Option Int) : Line × SentState :=
  let fin := sentence.foldl note_step ⟨[], start_beat, ms, me⟩
  if fin.notes = [] then (⟨[], none⟩, fin)
  else (⟨fix_last_note_space fin.notes, some fin.beat⟩, fin)

/-! ## V1 track building (`_parse_sentences_v1`, `_extract_tracks`)

Group sentences of a duet are appended to both tracks as the *same*
object, so lines are kept in a store (the heap) and tracks are lists of
store indices; mutation of a line mutates it in every track holding it,
exactly as in the source. -/

structure V1State where
  store : List Line
  track1 : List Nat
  track2 : List Nat
  singer : List Char
  beat : Int
  medley_start : Option Int
  medley_end : Option Int
deriving DecidableEq, Repr

/-- One iteration of the sentence loop of `_parse_sentences_v1`. -/
def v1_step (is_duet : Bool) (acc : V1State) (s : Sentence) : V1State :=
  let singer := s.singer.getD acc.singer
  let pr := parse_sentence_to_line s.notes acc.beat acc.medley_start acc.medley_end
  let base := { acc with
    singer := singer, beat := pr.2.beat,
    medley_start := pr.2.medley_start, medley_end := pr.2.medley_end }
  if pr.1.notes = [] then base
  else
    let line := { pr.1 with
      notes := split_lyrics_to_tildes (add_space_to_last_tilde pr.1.notes) }
    let idx := base.store.length
    let st2 := { base with store := base.store ++ [line] }
    if is_duet then
      if singer = ("Solo 2".toList) then { st2 with track2 := st2.track2 ++ [idx] }
      else if singer = ("Group".toList) then
        { st2 with track1 := st2.track1 ++ [idx], track2 := st2.track2 ++ [idx] }
      else { st2 with track1 := st2.track1 ++ [idx] }
    else { st2 with track1 := st2.track1 ++ [idx] }

/-- `_remove_last_linebreak` on a track of store indices: the last line of
the track with notes gets its break cleared, in the shared store. -/
def remove_last_linebreak (store : List Line) (track : List Nat) : List Line :=
  match track.reverse.find? (fun i => !((store.getD i default).notes.isEmpty)) with
  | some i => store.set i { (store.getD i default) with line_break := none }
  | none => store

/-- `_parse_sentences_v1`. -/
def parse_sentences_v1 (is_duet : Bool) (sentences : List Sentence) : V1State :=
  let st := sentences.foldl (v1_step is_duet)
    ⟨[], [], [], ("Solo 1".toList), 0, none, none⟩
  let store1 := remove_last_linebreak st.store st.track1
  let store2 := remove_last_linebreak store1 st.track2
  { st with store := store2 }

/-- The `fix_tilde_spacing` pass of `_extract_tracks`, run over
`tracks.track_1 + tracks.track_2` (an index shared by both tracks is
processed twice, as in the source). -/
def extract_tracks_v1 (is_duet : Bool) (sentences : List Sentence) : V1State :=
  let st := parse_sentences_v1 is_duet sentences
  let store3 := (st.track1 ++ st.track2).foldl
    (fun store i =>
      store.set i { (store.getD i default) with
        notes := fix_tilde_spacing (store.getD i default).notes })
    st.store
  { st with store := store3 }

/-- Reading a track out of the store. -/
def track_lines (store : List Line) (track : List Nat) : List Line :=
  track.map (fun i => store.getD i default)

/-! ## Metadata: BPM (`parse_bpm`) and the orchestrator
(`convert_to_songtxt`) -/

inductive Resolution where
  | semiquaver
  | demisemiquaver
deriving DecidableEq, Repr

def Resolution.value : Resolution → Int
  | .semiquaver => 1
  | .demisemiquaver => 2

/-- `Resolution.from_string` (unknown values default to Demisemiquaver
with a warning). -/
def Resolution.from_string (value : List Char) : Resolution :=
  if value = ("Semiquaver".toList) then .semiquaver
  else if value = ("Demisemiquaver".toList) then .demisemiquaver
  else .demisemiquaver

/-- The tempo fields of the converter object: `resolution` and
`raw_tempo` as set by `parse_bpm`; `bpm = none` models the `self.bpm`
attribute never having been assigned (it is only annotated in
`__init__`), so reading it raises `AttributeError`. -/
structure BpmSt where
  resolution : Resolution
  raw_tempo : Option ℚ
  bpm : Option ℚ
deriving DecidableEq, Repr

/-- `parse_bpm`.  `root_truthy` is the lxml truthiness of the root
element (an element with no children is falsy).  A malformed Tempo
attribute raises `ValueError` from `float(...)`, which the source does
not catch.  `not self.resolution` is always false (enum members are
truthy), so the early return fires exactly when `raw_tempo` is `None` or
`0.0`, leaving `bpm` unassigned. -/
def parse_bpm (root_truthy : Bool) (resolution_attr tempo_attr : Option (List Char)) :
    PyResult BpmSt :=
  let st : BpmSt := ⟨Resolution.demisemiquaver, none, none⟩
  if !root_truthy then .ok st
  else
    let st :=
      match resolution_attr with
      | some r => if !r.isEmpty then { st with resolution := Resolution.from_string r } else st
      | none => st
    match tempo_attr with
    | some t =>
        if !t.isEmpty then
          match pyFloat t with
          | none => .exn ("ValueError".toList)
          | some q =>
              let st := { st with raw_tempo := some q }
              if q = 0 then .ok st
              else .ok { st with bpm := some (q * ((st.resolution.value : Int) : ℚ)) }
        else .ok st
    | none => .ok st

/-- Model of a parsed V1 `<MELODY>` document: its sentences and the root
attributes the claims depend on. -/
structure DocV1 where
  sentences : List Sentence
  resolution_attr : Option (List Char)
  tempo_attr : Option (List Char)
  duet_attr : Option (List Char)
deriving DecidableEq, Repr

def DocV1.is_duet (doc : DocV1) : Bool :=
  parse_bool_attribute (some (doc.duet_attr.getD ("No".toList)))

/-- Python truthiness of an `Optional[int]`: `None` and `0` are falsy. -/
def truthy_opt_int : Option Int → Bool
  | none => false
  | some v => !(v = 0 : Bool)

/-- The `medleystartbeat` / `medleyendbeat` header fields assembled in
`convert_to_songtxt`: each is emitted only when *both* recorded values
are truthy. -/
def medley_header_fields (ms me : Option Int) : Option Int × Option Int :=
  (if truthy_opt_int ms && truthy_opt_int me then ms else none,
   if truthy_opt_int me && truthy_opt_int ms then me else none)

/-- The assembled output document (the fields the claims are about;
string metadata, derived filenames and the external finishing pipeline
are out of this core's scope). -/
structure SongDoc where
  medleystartbeat : Option Int
  medleyendbeat : Option Int
  bpm : ℚ
  track1 : List Line
  track2 : List Line
deriving DecidableEq, Repr

/-- `convert_to_songtxt` after a successful read/parse, on a V1 document
(`parse_ok = false` models the read-and-parse stage failing, which
returns `None`).  The leftover debug `print(extracted_tracks.track_1[4]
.notes[-1]...)` raises `IndexError` when track 1 has fewer than five
lines, and `Headers(bpm=self.bpm, ...)` raises `AttributeError` when
`parse_bpm` never assigned `self.bpm`. -/
def convert_to_songtxt_v1 (parse_ok : Bool) (doc : DocV1) :
    PyResult (Option SongDoc) :=
  if !parse_ok then .ok none
  else
    match parse_bpm (!doc.sentences.isEmpty) doc.resolution_attr doc.tempo_attr with
    | .exn e => .exn e
    | .ok bpmSt =>
        let st := extract_tracks_v1 doc.is_duet doc.sentences
        let t1 := track_lines st.store st.track1
        let t2 := track_lines st.store st.track2
        if t1.length ≤ 4 then .exn ("IndexError".toList)
        else if (t1.getD 4 default).notes.isEmpty then .exn ("IndexError".toList)
        else
          match bpmSt.bpm with
          | none => .exn ("AttributeError".toList)
          | some b =>
              let m := medley_header_fields st.medley_start st.medley_end
              .ok (some ⟨m.1, m.2, b, t1, t2⟩)

/-- A run of `extract_medley_markers` over the note elements of a
document, each observed at its beat position. -/
def run_medley_markers (obs : List (Int × NoteElem)) : SentState :=
  obs.foldl (fun st p => extract_medley_markers p.1 p.2 st) ⟨[], 0, none, none⟩

/-! ## Concrete inputs used by the claims -/

def elem_note_la : NoteElem :=
  ⟨some ("60".toList), some ("4".toList), some ("la".toList), none, none, none, []⟩

def elem_dur3 : NoteElem :=
  ⟨some ("60".toList), some ("3".toList), some ("la".toList), none, none, none, []⟩

def elem_dur0 : NoteElem :=
  ⟨some ("60".toList), some ("0".toList), some ("la".toList), none, none, none, []⟩

def elem_dur_neg : NoteElem :=
  ⟨some ("60".toList), some ("-2".toList), some ("la".toList), none, none, none, []⟩

def elem_lyric_trailing_space : NoteElem :=
  ⟨some ("60".toList), some ("4".toList), some ("la ".toList), none, none, none, []⟩

def elem_love : NoteElem :=
  ⟨some ("60".toList), some ("4".toList), some ("love-".toList), none, none, none, []⟩

def elem_held_hyphen : NoteElem :=
  ⟨some ("60".toList), some ("4".toList), some ("-".toList), none, none, none, []⟩

def sent_state0 : SentState := ⟨[], 0, none, none⟩

def sentence_la : Sentence := ⟨none, [elem_note_la]⟩

def doc_single_sentence : DocV1 := ⟨[sentence_la], none, some ("120".toList), none⟩

def doc_no_tempo : DocV1 := ⟨List.replicate 5 sentence_la, none, none, none⟩

def duet_group_sentences : List Sentence :=
  [⟨some ("Group".toList), [elem_note_la]⟩, ⟨some ("Solo 2".toList), [elem_note_la]⟩]

def marker_begin_elem : NoteElem :=
  ⟨none, none, none, none, none, none, [("MedleyNormalBegin".toList)]⟩

def marker_end_elem : NoteElem :=
  ⟨none, none, none, none, none, none, [("MedleyNormalEnd".toList)]⟩

def medley_obs0 : List (Int × NoteElem) := [(0, marker_begin_elem), (7, marker_end_elem)]

/-- The note texts of the `"love-"` `"-"` sentence after the full
per-line lyric pipeline (cleaning in `_parse_sentence_to_line`, then
`_add_space_to_last_tilde`, then `_split_lyrics_to_tildes`), as run by
`_parse_sentences_v1`. -/
def love_line_texts : List (List Char) :=
  (split_lyrics_to_tildes (add_space_to_last_tilde
    (parse_sentence_to_line [elem_love, elem_held_hyphen] 0 none none).1.notes)).map
    (fun n => n.text)

/-! ## Helper lemmas -/

theorem extract_medley_markers_beat_notes (b : Int) (elem : NoteElem) (st : SentState) :
    (extract_medley_markers b elem st).beat = st.beat ∧
    (extract_medley_markers b elem st).notes = st.notes := by
  unfold extract_medley_markers
  generalize elem.markers = ml
  induction ml generalizing st with
  | nil => exact ⟨rfl, rfl⟩
  | cons m ml ih =>
      simp only [List.foldl_cons]
      refine ⟨(ih _).1.trans ?_, (ih _).2.trans ?_⟩ <;>
        (split
         · rfl
         · split
           · rfl
           · rfl)

theorem fix_last_note_space_ends_with_space (l : List Note) (hl : l ≠ []) :
    ends_with_space (((fix_last_note_space l).getLastD default).text) = true := by
  unfold fix_last_note_space
  cases hgl : l.getLast? with
  | none =>
      cases l with
      | nil => exact absurd rfl hl
      | cons a as => simp [List.getLast?_concat] at hgl
  | some n =>
      simp only [List.getLastD_eq_getLast?, List.getLast?_concat, Option.getD_some,
        set_text]
      by_cases hs : ends_with_space n.text = true
      · rwa [if_pos hs]
      · rw [if_neg hs]
        simp [ends_with_space, List.getLast?_concat]

/-! ## Claim theorems -/

/-- Claim C1 (code_bug): `convert_to_songtxt` is claimed never to raise,
in particular on inputs that parse successfully but yield fewer than five
lines in track 1.  Evaluating the embedded orchestrator on such an input
(a single-sentence V1 document) shows the leftover debug
`print(extracted_tracks.track_1[4].notes[-1]...)` raising `IndexError`
instead of returning a document or `None`. -/
theorem c1_convert_raises_on_fewer_than_five_lines :
    convert_to_songtxt_v1 true doc_single_sentence = PyResult.exn ("IndexError".toList) := by
  decide

/-- Claim C2 (code_bug): with the Tempo attribute unavailable the claim
says the conversion proceeds to a degraded successful result; the code
leaves `self.bpm` unassigned and then `Headers(bpm=self.bpm, ...)` raises
`AttributeError`, aborting the conversion.  Evaluated on a V1 document
with five lines (so the debug print passes) and no Tempo attribute. -/
theorem c2_missing_tempo_raises_attribute_error :
    convert_to_songtxt_v1 true doc_no_tempo = PyResult.exn ("AttributeError".toList) := by
  decide

/-- Claim C3 (confirmed): a note whose duration attribute parses to a
positive integer `d` always advances the beat cursor by exactly `d`
(whatever its pitch, lyric, or parse failures elsewhere), and a note
whose duration parses to `0` is dropped with the cursor and the retained
notes unchanged — so a following note starts at the cursor value from
before the dropped note. -/
theorem c3_duration_advances_cursor_exactly (st : SentState) (elem : NoteElem)
    (d : Int) (hd : pyInt (elem.duration.getD ("0".toList)) = some d) :
    (0 < d → (note_step st elem).beat = st.beat + d) ∧
    (d = 0 → (note_step st elem).beat = st.beat ∧
      (note_step st elem).notes = st.notes) := by
  obtain ⟨hb, hn⟩ := extract_medley_markers_beat_notes st.beat elem st
  simp only [note_step]
  cases hm : pyInt (elem.midiNote.getD ("0".toList)) with
  | none =>
      simp only [except_duration_advance, hd]
      constructor
      · intro _; simp [hb]
      · rintro rfl; simp [hb, hn]
  | some pitch =>
      simp only [hd]
      constructor
      · intro hdpos
        have hnle : ¬ d ≤ 0 := by omega
        rw [if_neg hnle]
        by_cases hple : pitch ≤ 0
        · rw [if_pos hple]; simp [hb]
        · rw [if_neg hple]
          split <;> simp [hb]
      · rintro rfl
        simp [hb, hn]

theorem c3_witness :
    (note_step sent_state0 elem_dur3).beat = sent_state0.beat + 3 ∧
    ((note_step sent_state0 elem_dur0).beat = sent_state0.beat ∧
     (note_step sent_state0 elem_dur0).notes = sent_state0.notes) :=
  ⟨(c3_duration_advances_cursor_exactly sent_state0 elem_dur3 3 (by decide)).1
      (by decide),
   (c3_duration_advances_cursor_exactly sent_state0 elem_dur0 0 (by decide)).2
      (by decide)⟩

/-- Claim C4 counterexample: a note whose duration parses to `-2` (with a
valid pitch) leaves the beat cursor unchanged at `0`; the claim's
"still advanced by that duration" would require `-2`. -/
theorem c4_counterexample :
    (note_step sent_state0 elem_dur_neg).beat = 0 ∧
    ¬ ((note_step sent_state0 elem_dur_neg).beat = sent_state0.beat + (-2)) := by
  decide

/-- Claim C4 (corrected): a note whose duration attribute parses to a
non-positive integer (and whose pitch attribute parses, so the
exception handler is not involved) is dropped and the beat cursor is
left unchanged, not advanced. -/
theorem c4_nonpositive_duration_cursor_unchanged (st : SentState) (elem : NoteElem)
    (p d : Int) (hp : pyInt (elem.midiNote.getD ("0".toList)) = some p)
    (hd : pyInt (elem.duration.getD ("0".toList)) = some d) (hneg : d ≤ 0) :
    (note_step st elem).beat = st.beat ∧ (note_step st elem).notes = st.notes := by
  obtain ⟨hb, hn⟩ := extract_medley_markers_beat_notes st.beat elem st
  simp only [note_step, hp, hd, if_pos hneg]
  exact ⟨hb, hn⟩

theorem c4_witness :
    (note_step sent_state0 elem_dur_neg).beat = sent_state0.beat ∧
    (note_step sent_state0 elem_dur_neg).notes = sent_state0.notes :=
  c4_nonpositive_duration_cursor_unchanged sent_state0 elem_dur_neg 60 (-2)
    (by decide) (by decide) (by decide)

/-- Claim C5 counterexample: a final note whose raw lyric attribute is
`"la "` (trailing space) is retained with cleaned text `"la  "` — two
trailing spaces, not exactly one. -/
theorem c5_counterexample :
    ((parse_sentence_to_line [elem_lyric_trailing_space] 0 none none).1.notes ≠ []) ∧
    (((parse_sentence_to_line [elem_lyric_trailing_space] 0 none
        none).1.notes.getLastD default).text = ("la  ".toList)) ∧
    (ends_with_exactly_one_space
      (((parse_sentence_to_line [elem_lyric_trailing_space] 0 none
          none).1.notes.getLastD default).text) = false) := by
  decide

/-- Claim C5 (corrected): for every Line produced by per-sentence note
extraction that retains at least one note, the final retained note's
text ends with at least one trailing space (exactly one only when the
raw lyric itself does not end in whitespace). -/
theorem c5_last_note_ends_with_space (sentence : List NoteElem) (start_beat : Int)
    (ms me : Option Int)
    (h : (parse_sentence_to_line sentence start_beat ms me).1.notes ≠ []) :
    ends_with_space
      (((parse_sentence_to_line sentence start_beat ms me).1.notes.getLastD
        default).text) = true := by
  unfold parse_sentence_to_line at h ⊢
  by_cases hfin : (sentence.foldl note_step ⟨[], start_beat, ms, me⟩).notes = []
  · simp [hfin] at h
  · simp only [hfin, if_neg, ite_false]
    exact fix_last_note_space_ends_with_space _ hfin

theorem c5_witness :
    ends_with_space
      (((parse_sentence_to_line [elem_note_la] 0 none none).1.notes.getLastD
        default).text) = true :=
  c5_last_note_ends_with_space [elem_note_la] 0 none none (by decide)

/-- Claim C6 counterexample: the scenario's expected result is first note
`"lo"` and held note `"~ve "`; the code's pipeline does not produce that
pair of texts. -/
theorem c6_counterexample :
    love_line_texts ≠ [("lo".toList), ("~ve ".toList)] := by
  decide

/-- Claim C6 (corrected): a note with raw lyric `"love-"` followed by a
held note `"-"` yields first note `"lo"` and held note `"~ve- "` — the
trailing hyphen is preserved by `_fix_lyric_string` (hyphenated word) and
carried into the remainder, since the split only right-strips
whitespace. -/
theorem c6_love_split :
    love_line_texts = [("lo".toList), ("~ve- ".toList)] := by
  decide

/-- Claim C9 (code_bug): in a V1 duet where a Group sentence's line is
duplicated into both tracks as the same object, clearing the final break
of track 1 also clears the break of that line where it appears mid-track
in track 2: both lines of track 2 end up with no break, though only the
final one should. -/
theorem c9_group_alias_clears_non_final_break :
    (track_lines (extract_tracks_v1 true duet_group_sentences).store
        (extract_tracks_v1 true duet_group_sentences).track2).map
      (fun l => l.line_break) = [none, none] := by
  decide

/-- Claim C10 (confirmed): if the recorded medley markers are a begin at
beat `0` and an end at a positive beat, the assembled header fields carry
neither medley-start nor medley-end — Python truthiness of the
zero-valued start suppresses both. -/
theorem c10_zero_medley_start_suppresses_both (obs : List (Int × NoteElem)) (e : Int)
    (hs : (run_medley_markers obs).medley_start = some 0)
    (he : (run_medley_markers obs).medley_end = some e) (_hpos : 0 < e) :
    medley_header_fields (run_medley_markers obs).medley_start
      (run_medley_markers obs).medley_end = (none, none) := by
  rw [hs, he]
  simp [medley_header_fields, truthy_opt_int]

theorem c10_witness :
    medley_header_fields (run_medley_markers medley_obs0).medley_start
      (run_medley_markers medley_obs0).medley_end = (none, none) :=
  c10_zero_medley_start_suppresses_both medley_obs0 7 (by decide) (by decide)
    (by decide)

/-! ## Idempotence of `fix_tilde_spacing` (claim C8) -/

theorem pyStrip_tilde : pyStrip ['~'] = ['~'] := by decide

theorem pyStrip_tilde_space : pyStrip ['~', ' '] = ['~'] := by decide

theorem set_text_set_text (m : Note) (a b : List Char) :
    set_text (set_text m a) b = set_text m b := rfl

theorem text_set_text (m : Note) (a : List Char) : (set_text m a).text = a := rfl

theorem flush_tilde_run_eq_nil (run : List Note) (h : run.getLast? = none) :
    flush_tilde_run run = [] := by
  unfold flush_tilde_run
  rw [h]

theorem flush_tilde_run_eq_concat (run : List Note) (n : Note)
    (h : run.getLast? = some n) :
    flush_tilde_run run =
      run.dropLast.map (fun m => set_text m ['~']) ++ [set_text n ['~', ' ']] := by
  unfold flush_tilde_run
  rw [h]

theorem fix_tilde_spacing_go_nil (run : List Note) :
    fix_tilde_spacing_go run [] = flush_tilde_run run := rfl

theorem fix_tilde_spacing_go_cons (run : List Note) (n : Note) (rest : List Note) :
    fix_tilde_spacing_go run (n :: rest) =
      if pyStrip n.text = ['~'] then fix_tilde_spacing_go (run ++ [n]) rest
      else flush_tilde_run run ++ n :: fix_tilde_spacing_go [] rest := rfl

/-- Every note emitted by a run flush strips to a bare tilde. -/
theorem flush_tilde_run_strip (run : List Note) :
    ∀ x ∈ flush_tilde_run run, pyStrip x.text = ['~'] := by
  intro x hx
  cases hgl : run.getLast? with
  | none => rw [flush_tilde_run_eq_nil run hgl] at hx; cases hx
  | some n =>
      rw [flush_tilde_run_eq_concat run n hgl] at hx
      rcases List.mem_append.mp hx with hx | hx
      · obtain ⟨m, _, rfl⟩ := List.mem_map.mp hx
        rw [text_set_text]; exact pyStrip_tilde
      · obtain rfl := List.mem_singleton.mp hx
        rw [text_set_text]; exact pyStrip_tilde_space

/-- Scanning a block of tilde-stripping notes just extends the collected
run. -/
theorem fix_tilde_spacing_go_append_tildes :
    ∀ (xs : List Note) (run L : List Note), (∀ x ∈ xs, pyStrip x.text = ['~']) →
      fix_tilde_spacing_go run (xs ++ L) = fix_tilde_spacing_go (run ++ xs) L := by
  intro xs
  induction xs with
  | nil => intro run L _; simp
  | cons x xs ih =>
      intro run L h
      have hx : pyStrip x.text = ['~'] := h x (List.mem_cons_self x xs)
      rw [List.cons_append, fix_tilde_spacing_go_cons, if_pos hx,
        ih (run ++ [x]) L (fun y hy => h y (List.mem_cons_of_mem x hy)),
        List.append_assoc]
      rfl

/-- Flushing a run is idempotent. -/
theorem flush_tilde_run_flush (run : List Note) :
    flush_tilde_run (flush_tilde_run run) = flush_tilde_run run := by
  cases hgl : run.getLast? with
  | none => rw [flush_tilde_run_eq_nil run hgl]; rfl
  | some n =>
      rw [flush_tilde_run_eq_concat run n hgl,
        flush_tilde_run_eq_concat _ (set_text n ['~', ' ']) (List.getLast?_concat _),
        List.dropLast_concat, List.map_map, set_text_set_text]
      congr 1

/-- Rescanning the output of the scanning loop reproduces it. -/
theorem fix_tilde_spacing_go_idem :
    ∀ (l run : List Note), (∀ x ∈ run, pyStrip x.text = ['~']) →
      fix_tilde_spacing_go [] (fix_tilde_spacing_go run l) =
        fix_tilde_spacing_go run l := by
  intro l
  induction l with
  | nil =>
      intro run _
      rw [fix_tilde_spacing_go_nil]
      have h1 := fix_tilde_spacing_go_append_tildes (flush_tilde_run run) [] []
        (flush_tilde_run_strip run)
      simp only [List.append_nil, List.nil_append] at h1
      rw [h1, fix_tilde_spacing_go_nil, flush_tilde_run_flush]
  | cons n rest ih =>
      intro run hrun
      by_cases hn : pyStrip n.text = ['~']
      · rw [fix_tilde_spacing_go_cons, if_pos hn]
        refine ih (run ++ [n]) ?_
        intro x hx
        rcases List.mem_append.mp hx with hx | hx
        · exact hrun x hx
        · obtain rfl := List.mem_singleton.mp hx
          exact hn
      · rw [fix_tilde_spacing_go_cons run n rest, if_neg hn]
        rw [fix_tilde_spacing_go_append_tildes (flush_tilde_run run) [] _
          (flush_tilde_run_strip run)]
        simp only [List.nil_append]
        rw [fix_tilde_spacing_go_cons, if_neg hn]
        rw [flush_tilde_run_flush, ih [] (fun x hx => absurd hx (List.not_mem_nil x))]

/-- Claim C8 (confirmed): `fix_tilde_spacing` is idempotent — applying it
twice yields the same sequence of note texts as applying it once. -/
theorem c8_fix_tilde_spacing_idempotent (notes : List Note) :
    (fix_tilde_spacing (fix_tilde_spacing notes)).map (fun n => n.text) =
      (fix_tilde_spacing notes).map (fun n => n.text) := by
  unfold fix_tilde_spacing
  rw [fix_tilde_spacing_go_idem notes [] (fun x hx => absurd hx (List.not_mem_nil x))]

/-! ## The syllable-split search (claim C7)

Two reference descriptions of `_split_on_first_vowel_or_diphthong` are
stated here.  `split_on_first_vowel_or_diphthong_cs` is the claim as
written: the diphthong lookup is *case-sensitive* set membership of the
raw two-character substring.  `split_on_first_vowel_or_diphthong_spec` is
the same description with the membership case-insensitive (the substring
lowercased before the lookup), which is what the source does. -/

/-- The claim's first loop as stated: case-sensitive membership (no
lowercasing of the substring). -/
def diph_scan_cs (text : List Char) : List (Nat × Nat) :=
  (List.range (text.length - 1)).filterMap (fun i =>
    if (text.drop i).take 2 ∈ DIPHTHONGS then some (i, 2) else none)

/-- The search as the claim states it (case-sensitive diphthong
membership, everything else unchanged). -/
def split_on_first_vowel_or_diphthong_cs (text : List Char) :
    Option (List Char × List Char) :=
  match sort_by_fst (vowel_scan text (diph_scan_cs text)) with
  | [] => none
  | m :: _ => some (text.take (m.1 + m.2), text.drop (m.1 + m.2))

/-- A diphthong match starts at `i`: the lowercased two-character
substring at `i` is in the table (case-insensitive membership). -/
def diph_at (text : List Char) (i : Nat) : Bool :=
  decide (i + 1 < text.length) &&
    decide (pyLower ((text.drop i).take 2) ∈ DIPHTHONGS)

/-- Position `i` is covered by some diphthong match. -/
def spec_covered (text : List Char) (i : Nat) : Bool :=
  (List.range text.length).any (fun j =>
    diph_at text j && decide (j ≤ i) && decide (i < j + 2))

/-- Single-vowel match at `i`: a vowel at a position not covered by a
diphthong match. -/
def vowel_match_at (text : List Char) (i : Nat) : Bool :=
  decide (i < text.length) && decide (text.getD i ' ' ∈ VOWELS) &&
    !(spec_covered text i)

def spec_match_at (text : List Char) (i : Nat) : Bool :=
  diph_at text i || vowel_match_at text i

/-- The search as described by the spec (with case-insensitive
membership): split at the end of the earliest diphthong-or-uncovered-
vowel match, a diphthong taking priority at its start position; no match
leaves the note unsplit. -/
def split_on_first_vowel_or_diphthong_spec (text : List Char) :
    Option (List Char × List Char) :=
  match (List.range text.length).find? (spec_match_at text) with
  | none => none
  | some i =>
      some (text.take (i + (if diph_at text i then 2 else 1)),
            text.drop (i + (if diph_at text i then 2 else 1)))

/-- Claim C7 counterexample: on `"AU"` the code splits as a diphthong
(the lowercased substring `"au"` is in the table), while the claimed
case-sensitive search would not (`"AU"` is not in the table) and would
split after the single vowel `'A'`. -/
theorem c7_counterexample :
    split_on_first_vowel_or_diphthong ("AU".toList) ≠
        split_on_first_vowel_or_diphthong_cs ("AU".toList) ∧
    split_on_first_vowel_or_diphthong ("AU".toList) =
        some (("AU".toList), []) ∧
    split_on_first_vowel_or_diphthong_cs ("AU".toList) =
        some (("A".toList), ("U".toList)) := by
  decide

/-- `find?` over `range n` returns the least index satisfying the
predicate. -/
theorem find?_range_min (p : Nat → Bool) :
    ∀ (n i : Nat), (List.range n).find? p = some i →
      p i = true ∧ i < n ∧ ∀ j, j < i → p j = false := by
  intro n
  induction n with
  | zero => intro i h; simp [List.range_zero] at h
  | succ n ih =>
      intro i h
      rw [List.range_succ, List.find?_append] at h
      cases hfn : (List.range n).find? p with
      | some i2 =>
          rw [hfn] at h
          have he : i2 = i := by simpa [Option.or] using h
          obtain ⟨h1, h2, h3⟩ := ih i2 hfn
          exact ⟨he ▸ h1, by omega, fun j hj => h3 j (by omega)⟩
      | none =>
          rw [hfn] at h
          simp only [Option.or] at h
          have hall := List.find?_eq_none.mp hfn
          cases hpn : p n with
          | true =>
              simp only [List.find?, hpn] at h
              obtain rfl : n = i := by simpa using h
              refine ⟨hpn, by omega, ?_⟩
              intro j hj
              have := hall j (List.mem_range.mpr hj)
              simpa using this
          | false =>
              simp only [List.find?, hpn] at h
              cases h

theorem mem_diph_scan (text : List Char) (i l : Nat) :
    (i, l) ∈ diph_scan text ↔ l = 2 ∧ diph_at text i = true := by
  unfold diph_scan diph_at
  rw [List.mem_filterMap]
  constructor
  · rintro ⟨a, ha, hfa⟩
    rw [List.mem_range] at ha
    by_cases hc : pyLower ((text.drop a).take 2) ∈ DIPHTHONGS
    · rw [if_pos hc] at hfa
      obtain ⟨rfl, rfl⟩ : a = i ∧ 2 = l := by simpa using hfa
      refine ⟨rfl, ?_⟩
      simp only [Bool.and_eq_true, decide_eq_true_eq]
      exact ⟨by omega, hc⟩
    · rw [if_neg hc] at hfa; cases hfa
  · rintro ⟨rfl, hd⟩
    simp only [Bool.and_eq_true, decide_eq_true_eq] at hd
    exact ⟨i, List.mem_range.mpr (by omega), by rw [if_pos hd.2]⟩

theorem diph_at_lt (text : List Char) (i : Nat) (h : diph_at text i = true) :
    i < text.length := by
  unfold diph_at at h
  simp only [Bool.and_eq_true, decide_eq_true_eq] at h
  omega

theorem diph_at_spec_covered (text : List Char) (i : Nat)
    (h : diph_at text i = true) : spec_covered text i = true := by
  unfold spec_covered
  rw [List.any_eq_true]
  refine ⟨i, List.mem_range.mpr (diph_at_lt text i h), ?_⟩
  simp only [Bool.and_eq_true, decide_eq_true_eq]
  exact ⟨⟨h, Nat.le_refl i⟩, by omega⟩

/-- `covered` over the collected diphthong matches agrees with the
spec's coverage predicate. -/
theorem covered_diph_scan (text : List Char) (i : Nat) :
    covered (diph_scan text) i = spec_covered text i := by
  have hiff : covered (diph_scan text) i = true ↔ spec_covered text i = true := by
    unfold covered spec_covered
    simp only [List.any_eq_true, Bool.and_eq_true, decide_eq_true_eq]
    constructor
    · rintro ⟨x, hx, hle, hlt⟩
      obtain ⟨qa, qb⟩ := x
      rw [mem_diph_scan] at hx
      obtain ⟨rfl, hd⟩ := hx
      exact ⟨qa, List.mem_range.mpr (diph_at_lt text qa hd), ⟨hd, hle⟩, hlt⟩
    · rintro ⟨j, _, ⟨hd, hle⟩, hlt⟩
      exact ⟨(j, 2), (mem_diph_scan text j 2).mpr ⟨rfl, hd⟩, hle, hlt⟩
  cases h1 : covered (diph_scan text) i <;> cases h2 : spec_covered text i <;>
    simp_all

/-- The vowel loop stopped after the first `n` positions. -/
def vowel_scan_upto (text : List Char) (n : Nat) : List (Nat × Nat) :=
  (List.range n).foldl (vowel_scan_step text) (diph_scan text)

theorem vowel_scan_upto_succ (text : List Char) (n : Nat) :
    vowel_scan_upto text (n + 1) =
      vowel_scan_step text (vowel_scan_upto text n) n := by
  unfold vowel_scan_upto
  rw [List.range_succ, List.foldl_append]
  rfl

/-- Invariant of the vowel loop: after scanning the first `n` positions
the match list holds exactly the diphthong matches and the uncovered
vowels below `n`. -/
theorem mem_vowel_scan_upto (text : List Char) :
    ∀ (n : Nat) (q : Nat × Nat),
      q ∈ vowel_scan_upto text n ↔
        q ∈ diph_scan text ∨
          (q.2 = 1 ∧ q.1 < n ∧ vowel_match_at text q.1 = true) := by
  intro n
  induction n with
  | zero =>
      intro q
      unfold vowel_scan_upto
      simp [List.range_zero]
  | succ n ih =>
      intro q
      rw [vowel_scan_upto_succ]
      unfold vowel_scan_step
      have hcoviff : covered (vowel_scan_upto text n) n = true ↔
          covered (diph_scan text) n = true := by
        unfold covered
        simp only [List.any_eq_true, Bool.and_eq_true, decide_eq_true_eq]
        constructor
        · rintro ⟨x, hx, hle, hlt⟩
          rcases (ih x).mp hx with hxD | ⟨h1, h2, _⟩
          · exact ⟨x, hxD, hle, hlt⟩
          · omega
        · rintro ⟨x, hxD, hle, hlt⟩
          exact ⟨x, (ih x).mpr (Or.inl hxD), hle, hlt⟩
      by_cases hC : text.getD n ' ' ∈ VOWELS ∧
          covered (vowel_scan_upto text n) n = false
      · rw [if_pos hC]
        rw [List.mem_append, List.mem_singleton, ih]
        have hnlen : n < text.length := by
          by_contra hge
          have hdef : text.getD n ' ' = ' ' :=
            List.getD_eq_default _ _ (by omega)
          rw [hdef] at hC
          exact absurd hC.1 (by decide)
        have hvm : vowel_match_at text n = true := by
          unfold vowel_match_at
          simp only [Bool.and_eq_true, decide_eq_true_eq, Bool.not_eq_true']
          refine ⟨⟨hnlen, hC.1⟩, ?_⟩
          rw [← covered_diph_scan]
          cases hcv : covered (diph_scan text) n with
          | false => rfl
          | true => exact absurd (hcoviff.mpr hcv) (by rw [hC.2]; simp)
        constructor
        · rintro ((hq | ⟨h1, h2, h3⟩) | rfl)
          · exact Or.inl hq
          · exact Or.inr ⟨h1, by omega, h3⟩
          · exact Or.inr ⟨rfl, by omega, hvm⟩
        · rintro (hq | ⟨h1, h2, h3⟩)
          · exact Or.inl (Or.inl hq)
          · by_cases hqn : q.1 = n
            · refine Or.inr ?_
              obtain ⟨qa, qb⟩ := q
              simp only at h1 hqn
              rw [h1, hqn]
            · exact Or.inl (Or.inr ⟨h1, by omega, h3⟩)
      · rw [if_neg hC, ih]
        constructor
        · rintro (hq | ⟨h1, h2, h3⟩)
          · exact Or.inl hq
          · exact Or.inr ⟨h1, by omega, h3⟩
        · rintro (hq | ⟨h1, h2, h3⟩)
          · exact Or.inl hq
          · by_cases hqn : q.1 = n
            · exfalso
              rw [hqn] at h3
              unfold vowel_match_at at h3
              simp only [Bool.and_eq_true, decide_eq_true_eq,
                Bool.not_eq_true'] at h3
              obtain ⟨⟨hlen, hvow⟩, hnc⟩ := h3
              refine hC ⟨hvow, ?_⟩
              cases hcv : covered (vowel_scan_upto text n) n with
              | false => rfl
              | true =>
                  have := hcoviff.mp hcv
                  rw [covered_diph_scan] at this
                  rw [this] at hnc
                  cases hnc
            · exact Or.inr ⟨h1, by omega, h3⟩

/-- Membership in the full match list built by the source's two loops. -/
theorem mem_vowel_scan (text : List Char) (q : Nat × Nat) :
    q ∈ vowel_scan text (diph_scan text) ↔
      q ∈ diph_scan text ∨ (q.2 = 1 ∧ vowel_match_at text q.1 = true) := by
  have h := mem_vowel_scan_upto text text.length q
  rw [show vowel_scan text (diph_scan text) = vowel_scan_upto text text.length
    from rfl] at *
  rw [h]
  constructor
  · rintro (hq | ⟨h1, _, h3⟩)
    · exact Or.inl hq
    · exact Or.inr ⟨h1, h3⟩
  · rintro (hq | ⟨h1, h3⟩)
    · exact Or.inl hq
    · have hlen : q.1 < text.length := by
        unfold vowel_match_at at h3
        simp only [Bool.and_eq_true, decide_eq_true_eq] at h3
        exact h3.1.1
      exact Or.inr ⟨h1, hlen, h3⟩

theorem sort_by_fst_nil : sort_by_fst [] = [] := rfl

theorem sort_by_fst_cons (y : Nat × Nat) (ys : List (Nat × Nat)) :
    sort_by_fst (y :: ys) = insert_by_fst y (sort_by_fst ys) := rfl

theorem mem_insert_by_fst (m : Nat × Nat) (l : List (Nat × Nat)) (x : Nat × Nat) :
    x ∈ insert_by_fst m l ↔ x = m ∨ x ∈ l := by
  induction l with
  | nil => simp [insert_by_fst]
  | cons y ys ih =>
      unfold insert_by_fst
      by_cases h : m.1 < y.1
      · rw [if_pos h]
        simp [List.mem_cons]
      · rw [if_neg h]
        simp only [List.mem_cons, ih]
        tauto

theorem mem_sort_by_fst (l : List (Nat × Nat)) (x : Nat × Nat) :
    x ∈ sort_by_fst l ↔ x ∈ l := by
  induction l with
  | nil => rw [sort_by_fst_nil]
  | cons y ys ih =>
      rw [sort_by_fst_cons, mem_insert_by_fst, ih, List.mem_cons]

/-- The head of the sorted match list has the least start position. -/
theorem sort_by_fst_head_min (l : List (Nat × Nat)) :
    ∀ x rest, sort_by_fst l = x :: rest → ∀ a ∈ l, x.1 ≤ a.1 := by
  induction l with
  | nil => intro x rest h; rw [sort_by_fst_nil] at h; cases h
  | cons b t ih =>
      intro x rest h a ha
      rw [sort_by_fst_cons] at h
      cases hst : sort_by_fst t with
      | nil =>
          rw [hst] at h
          unfold insert_by_fst at h
          obtain ⟨rfl, -⟩ : b = x ∧ [] = rest := by
            constructor <;> [exact (List.cons.injEq _ _ _ _ ▸ h).1;
              exact (List.cons.injEq _ _ _ _ ▸ h).2]
          rcases List.mem_cons.mp ha with rfl | hat
          · exact Nat.le_refl _
          · exact absurd ((mem_sort_by_fst t a).mpr hat)
              (by rw [hst]; exact List.not_mem_nil a)
      | cons y r =>
          rw [hst] at h
          unfold insert_by_fst at h
          by_cases hb : b.1 < y.1
          · rw [if_pos hb] at h
            injection h with h1 h2
            subst h1
            rcases List.mem_cons.mp ha with rfl | hat
            · exact Nat.le_refl _
            · exact Nat.le_of_lt (Nat.lt_of_lt_of_le hb (ih y r hst a hat))
          · rw [if_neg hb] at h
            injection h with h1 h2
            subst h1
            rcases List.mem_cons.mp ha with rfl | hat
            · omega
            · exact ih y r hst a hat

/-- An element of the match list sits at a matching position. -/
theorem mem_match_list_spec (text : List Char) (q : Nat × Nat)
    (hq : q ∈ vowel_scan text (diph_scan text)) :
    spec_match_at text q.1 = true ∧ q.1 < text.length := by
  rcases (mem_vowel_scan text q).mp hq with h | ⟨_, h3⟩
  · have hd : diph_at text q.1 = true :=
      ((mem_diph_scan text q.1 q.2).mp (by rwa [Prod.mk.eta])).2
    refine ⟨?_, diph_at_lt text q.1 hd⟩
    unfold spec_match_at
    rw [hd, Bool.true_or]
  · have hlen : q.1 < text.length := by
      unfold vowel_match_at at h3
      simp only [Bool.and_eq_true, decide_eq_true_eq] at h3
      exact h3.1.1
    refine ⟨?_, hlen⟩
    unfold spec_match_at
    rw [h3, Bool.or_true]

/-- Claim C7 (corrected): the syllable-split search of the source agrees,
for every text, with the spec's earliest-match description amended to use
case-insensitive diphthong membership (the two-character substring is
lowercased before the set lookup): diphthong matches are collected first,
then vowels at positions not covered by a matched diphthong, and the text
is split at the end of the earliest match; with no match the note is left
unsplit. -/
theorem c7_split_search_case_insensitive (text : List Char) :
    split_on_first_vowel_or_diphthong text =
      split_on_first_vowel_or_diphthong_spec text := by
  unfold split_on_first_vowel_or_diphthong split_on_first_vowel_or_diphthong_spec
  cases hf : (List.range text.length).find? (spec_match_at text) with
  | none =>
      have hall := List.find?_eq_none.mp hf
      have hM : vowel_scan text (diph_scan text) = [] := by
        rw [List.eq_nil_iff_forall_not_mem]
        intro q hq
        obtain ⟨hm, hlen⟩ := mem_match_list_spec text q hq
        exact (hall q.1 (List.mem_range.mpr hlen)) hm
      rw [hM, sort_by_fst_nil]
  | some i0 =>
      obtain ⟨hp, hilen, hmin⟩ :=
        find?_range_min (spec_match_at text) text.length i0 hf
      have helem : ∀ hd : diph_at text i0 = true,
          ((i0, 2) : Nat × Nat) ∈ vowel_scan text (diph_scan text) :=
        fun hd => (mem_vowel_scan text (i0, 2)).mpr
          (Or.inl ((mem_diph_scan text i0 2).mpr ⟨rfl, hd⟩))
      have hvm_of : diph_at text i0 = false → vowel_match_at text i0 = true := by
        intro hd
        unfold spec_match_at at hp
        rw [hd, Bool.false_or] at hp
        exact hp
      have helem2 : ∀ _ : diph_at text i0 = false,
          ((i0, 1) : Nat × Nat) ∈ vowel_scan text (diph_scan text) :=
        fun hd => (mem_vowel_scan text (i0, 1)).mpr (Or.inr ⟨rfl, hvm_of hd⟩)
      cases hs : sort_by_fst (vowel_scan text (diph_scan text)) with
      | nil =>
          exfalso
          have hM : vowel_scan text (diph_scan text) = [] := by
            cases hM : vowel_scan text (diph_scan text) with
            | nil => rfl
            | cons z zs =>
                have : z ∈ sort_by_fst (vowel_scan text (diph_scan text)) :=
                  (mem_sort_by_fst _ z).mpr (by rw [hM]; exact List.mem_cons_self z zs)
                rw [hs] at this
                exact absurd this (List.not_mem_nil z)
          cases hd : diph_at text i0 with
          | true =>
              have := helem hd
              rw [hM] at this
              exact absurd this (List.not_mem_nil _)
          | false =>
              have := helem2 hd
              rw [hM] at this
              exact absurd this (List.not_mem_nil _)
      | cons m rest =>
          have hmem : m ∈ vowel_scan text (diph_scan text) :=
            (mem_sort_by_fst _ m).mp (by rw [hs]; exact List.mem_cons_self m rest)
          have hmin2 : ∀ a ∈ vowel_scan text (diph_scan text), m.1 ≤ a.1 :=
            sort_by_fst_head_min _ m rest hs
          have hge : i0 ≤ m.1 := by
            obtain ⟨hm, _⟩ := mem_match_list_spec text m hmem
            by_contra hlt
            have hfalse := hmin m.1 (by omega)
            rw [hm] at hfalse
            cases hfalse
          cases hd : diph_at text i0 with
          | true =>
              have hle : m.1 ≤ i0 := hmin2 (i0, 2) (helem hd)
              have hm1 : m.1 = i0 := Nat.le_antisymm hle hge
              have hm2 : m.2 = 2 := by
                rcases (mem_vowel_scan text m).mp hmem with hD | ⟨h1, hvm⟩
                · exact ((mem_diph_scan text m.1 m.2).mp (by rwa [Prod.mk.eta])).1
                · exfalso
                  rw [hm1] at hvm
                  unfold vowel_match_at at hvm
                  simp only [Bool.and_eq_true, decide_eq_true_eq,
                    Bool.not_eq_true'] at hvm
                  have hcov := diph_at_spec_covered text i0 hd
                  rw [hvm.2] at hcov
                  cases hcov
              simp [hm1, hm2, hd]
          | false =>
              have hle : m.1 ≤ i0 := hmin2 (i0, 1) (helem2 hd)
              have hm1 : m.1 = i0 := Nat.le_antisymm hle hge
              have hm2 : m.2 = 1 := by
                rcases (mem_vowel_scan text m).mp hmem with hD | ⟨h1, _⟩
                · exfalso
                  have hD2 := (mem_diph_scan text m.1 m.2).mp (by rwa [Prod.mk.eta])
                  rw [hm1] at hD2
                  rw [hD2.2] at hd
                  cases hd
                · exact h1
              simp [hm1, hm2, hd]

end XmlConverter
